import Mathlib

/-!
Shallow embedding of the HTTP request/transport/recording core of an
Azure SDK for C++ snapshot, for verifying its natural-language
specification.

Sources embedded:
- sdk/core/azure-core/src/http/request.cpp          (Request: query/header overlays)
- sdk/core/azure-core/src/http/curl/curl_transport.cpp (CurlTransport: Send, header parsing)
- sdk/core/azure-core-test/src/record_policy.cpp    (RecordNetworkCallPolicy::Send)

C++ std::map<std::string, std::string> is modelled as an association
list, List (String x String), with key uniqueness maintained by the
operations below. std::map iterates in key-sorted order; the iteration
order is abstracted as insertion order here, and no verified claim
depends on iteration order.
-/

namespace AzureCore

/-- Whether an association list holds a binding for key k
(std::map::find(k) != end()). -/
def containsKey (k : String) (m : List (String × String)) : Bool :=
  (m.lookup k).isSome

/-- std::map::insert(pair(k, v)): adds the binding only when the key is
absent; an existing binding for k is kept unchanged. -/
def mapInsert (k v : String) (m : List (String × String)) :
    List (String × String) :=
  if containsKey k m then m else m ++ [(k, v)]

/-- std::map operator[] followed by assignment (m[k] = v): replaces the
value of an existing binding in place, else adds the binding. -/
def mapAssign (k v : String) : List (String × String) → List (String × String)
  | [] => [(k, v)]
  | (k', v') :: t => if k' == k then (k', v) :: t else (k', v') :: mapAssign k v t

/-- Keys of the map are pairwise distinct (always true of a std::map). -/
def keysNodup (m : List (String × String)) : Prop :=
  (m.map Prod.fst).Nodup

/-- Number of bindings a list holds for key k. -/
def occurrences (k : String) (m : List (String × String)) : Nat :=
  m.countP (fun p => p.1 == k)

/-- Modelled from the spec: the body of Request::MergeMaps lives in
http.hpp, which is not among the provided sources. The spec states that
the two query-overlay scopes "are merged with retry-scope values taking
precedence; merge never produces duplicate keys". The left argument is
the retry-scope map (as at both call sites in request.cpp): its
bindings are all kept, and from the right map only keys absent from the
left are added. -/
def mergeMaps (l r : List (String × String)) : List (String × String) :=
  l ++ r.filter (fun p => !(containsKey p.1 l))

/-- Request as in azure-core (request.cpp era): a plain string URL plus
two header maps and two query maps, one pair per overlay scope, and the
retry-mode flag set by StartRetry. Body fields are omitted: no claim
about this class touches them. -/
structure Request where
  url : String
  queryParameters : List (String × String)
  retryQueryParameters : List (String × String)
  headers : List (String × String)
  retryHeaders : List (String × String)
  retryModeEnabled : Bool
  deriving Repr, DecidableEq

/-- Request::AddQueryParameter: retry scope assigns through operator[]
("any new value must override previous"); normal scope uses
std::map::insert. -/
def addQueryParameter (name value : String) (req : Request) : Request :=
  if req.retryModeEnabled then
    { req with retryQueryParameters := mapAssign name value req.retryQueryParameters }
  else
    { req with queryParameters := mapInsert name value req.queryParameters }

/-- Request::AddHeader: same two-scope scheme as AddQueryParameter. -/
def addHeader (name value : String) (req : Request) : Request :=
  if req.retryModeEnabled then
    { req with retryHeaders := mapAssign name value req.retryHeaders }
  else
    { req with headers := mapInsert name value req.headers }

/-- Request::StartRetry: enables retry mode and clears the retry-scope
header map; nothing else is touched. -/
def startRetry (req : Request) : Request :=
  { req with retryModeEnabled := true, retryHeaders := [] }

/-- Query-string building loop of Request::GetEncodedUrl: the first
pair is prefixed with a question mark, later pairs with an ampersand. -/
def queryString (ps : List (String × String)) : String :=
  ps.foldl (fun acc p => acc ++ (if acc.isEmpty then "?" else "&") ++ p.1 ++ "=" ++ p.2) ""

/-- Request::GetEncodedUrl: with both query maps empty the raw URL is
returned; otherwise the retry-scope map is merged over the normal map
and the merged pairs are appended as a query string. -/
def getEncodedUrl (req : Request) : String :=
  if req.queryParameters.isEmpty && req.retryQueryParameters.isEmpty then
    req.url
  else
    req.url ++ queryString (mergeMaps req.retryQueryParameters req.queryParameters)

/-- Request::GetHeaders: retry headers merged over normal headers. -/
def getHeaders (req : Request) : List (String × String) :=
  mergeMaps req.retryHeaders req.headers

/-!
Curl transport (curl_transport.cpp). The native engine result CURLcode
is a plain machine integer, modelled as Nat; the three values the code
names carry libcurl's numeric values (only their distinctness and
nonzero-ness matter to any claim).
-/

def CURLE_OK : Nat := 0

def CURLE_COULDNT_RESOLVE_HOST : Nat := 6

def CURLE_WRITE_ERROR : Nat := 23

/-- Response as constructed by the transport: protocol version,
status code, reason phrase and the headers appended so far. Strings
handled by the header parser are modelled as lists of characters
(C++ iterates over them by iterator). -/
structure Response where
  majorVersion : Nat
  minorVersion : Nat
  statusCode : Nat
  reasonPhrase : List Char
  headers : List (String × String)
  deriving Repr, DecidableEq

/-- Modelled from the spec: Response::AddHeader is declared in http.hpp,
not among the provided sources. The spec says subsequent header lines
"are name:value pairs, appended" to the response's header mapping. -/
def respAddHeader (name value : String) (resp : Response) : Response :=
  { resp with headers := resp.headers ++ [(name, value)] }

/-- The typed failures thrown by CurlTransport::Send. -/
inductive CurlSendError where
  | couldNotResolveHostException
  | errorWhileWrittingResponse
  | transportException
  deriving Repr, DecidableEq

/-- Error-mapping tail of CurlTransport::Send: given the CURLcode
returned by Perform and the response built by the callbacks, a nonzero
code is switched into one of three typed exceptions and a zero code
returns the response. -/
def curlSend (performing : Nat) (resp : Response) : Except CurlSendError Response :=
  if performing != CURLE_OK then
    if performing == CURLE_COULDNT_RESOLVE_HOST then
      Except.error CurlSendError.couldNotResolveHostException
    else if performing == CURLE_WRITE_ERROR then
      Except.error CurlSendError.errorWhileWrittingResponse
    else
      Except.error CurlSendError.transportException
  else
    Except.ok resp

/-- Numeric value of a digit run (what std::stoi computes on an
all-digit slice before its range check). -/
def digitsVal (l : List Char) : Nat :=
  l.foldl (fun n c => n * 10 + (c.toNat - 48)) 0

/-- std::stoi on the slices cut by the status-line parser: the value of
the leading digit run; Option.none when there is no digit (std::stoi
throws std::invalid_argument) or when the value exceeds INT_MAX =
2^31 - 1 (std::stoi throws std::out_of_range on the platforms this
code targets, where int is 32 bits). Leading whitespace and sign
handling of std::stoi are elided: every call site passes a slice that
starts right after a separator character. -/
def stoi (l : List Char) : Option Nat :=
  let ds := l.takeWhile Char.isDigit
  if ds = [] then none
  else if digitsVal ds > 2147483647 then none
  else some (digitsVal ds)

/-- ParseAndSetFirstHeader: skips five characters (HTTP plus the
slash), cuts the major version at the first dot, the minor version and
the status code at the following spaces (std::find modelled with
takeWhile/dropWhile), converts the three slices with std::stoi, and
takes everything after the third separator minus the final two
characters (CR LF) as the reason phrase. The Response constructor is
called with (uint16_t)majorVersion and (uint16_t)minorVersion, so both
version numbers wrap modulo 2^16; the status code is passed through
HttpStatusCode(int) unwrapped. The fresh Response starts with no
headers. -/
def parseAndSetFirstHeader (header : List Char) : Option Response :=
  let s1 := header.drop 5
  let majorS := s1.takeWhile (fun c => c != '.')
  let r1 := s1.dropWhile (fun c => c != '.')
  let s2 := r1.drop 1
  let minorS := s2.takeWhile (fun c => c != ' ')
  let r2 := s2.dropWhile (fun c => c != ' ')
  let s3 := r2.drop 1
  let statusS := s3.takeWhile (fun c => c != ' ')
  let r3 := s3.dropWhile (fun c => c != ' ')
  let reason := (r3.drop 1).dropLast.dropLast
  match stoi majorS, stoi minorS, stoi statusS with
  | some mj, some mn, some st => some ⟨mj % 65536, mn % 65536, st, reason, []⟩
  | _, _, _ => none

/-- CurlTransport::ParseHeader: the text before the first colon is the
header name; no colon at all returns with the response untouched (end
of headers sentinel). After the colon, leading spaces and tabs are
skipped, and the value is the rest of the line minus its final two
characters (CR LF); the pair is added to the response. -/
def parseHeader (resp : Response) (header : List Char) : Response :=
  let name := header.takeWhile (fun c => c != ':')
  let rest := header.dropWhile (fun c => c != ':')
  match rest with
  | [] => resp
  | _ :: afterColon =>
    let trimmed := afterColon.dropWhile (fun c => c == ' ' || c == '\t')
    let value := trimmed.dropLast.dropLast
    respAddHeader (String.mk name) (String.mk value) resp

/-!
Recording policy (record_policy.cpp). The Request/RawResponse classes
this translation unit works against (GetUrl returning a Url object,
IsDownloadViaStream, GetHeaders, GetStatusCode/GetHeaders/GetBody)
are declared in headers outside the provided sources; their shapes are
modelled from the spec of the Url/Request/Response data model.
-/

/-- Modelled from the spec: the Url class (http.hpp is not among the
provided sources) carries "scheme, host, port, path segments,
ordered-but-deduplicated query parameter mapping (key unique, last
write wins within a scope)". -/
structure Url where
  scheme : String
  host : String
  port : Nat
  path : String
  query : List (String × String)
  deriving Repr, DecidableEq

/-- Modelled from the spec: Url::AppendQueryParameter on the
last-write-wins query mapping replaces any existing binding. -/
def urlAppendQueryParameter (k v : String) (u : Url) : Url :=
  { u with query := mapAssign k v u.query }

/-- Modelled from the spec: Url::GetAbsoluteUrl reassembles the URL
text from its parts with the query pairs appended. -/
def urlGetAbsoluteUrl (u : Url) : String :=
  u.scheme ++ "://" ++ u.host ++ u.path ++ queryString u.query

/-- Request as seen by the recording policy: streaming-body flag (the
spec: "a flag records which mode is active"), method text, the merged
request headers, and the Url object. -/
structure TestRequest where
  isDownloadViaStream : Bool
  method : String
  headers : List (String × String)
  url : Url
  deriving Repr, DecidableEq

/-- RawResponse as consumed by the recording policy: status code,
headers, body text. -/
structure RawResponse where
  statusCode : Nat
  headers : List (String × String)
  body : String
  deriving Repr, DecidableEq

/-- One NetworkCallRecord entry: method, redacted URI, filtered request
headers, and the response data map. -/
structure NetworkCallRecord where
  method : String
  uri : String
  headers : List (String × String)
  response : List (String × String)
  deriving Repr, DecidableEq

/-- The two exception kinds RecordNetworkCallPolicy::Send throws:
std::invalid_argument for a streaming request and std::runtime_error
for a host without a dot. -/
inductive RecError where
  | unsupportedStreaming
  | hostWithoutDot
  deriving Repr, DecidableEq

/-- The fixed allow-list GetRequestBaseHeader builds. -/
def requestBaseHeaders : List String :=
  ["x-ms-client-request-id", "Content-Type", "x-ms-version", "User-Agent"]

/-- Base-header filter loop of Send: keep a request header only when
its name is in the allow-list (headers.insert into a fresh map). -/
def filterBaseHeaders (hs : List (String × String)) : List (String × String) :=
  hs.foldl (fun acc h => if requestBaseHeaders.contains h.1 then mapInsert h.1 h.2 acc else acc) []

/-- Modelled from the spec where Url getters/setters are concerned:
the "Remove Account info from URL" block of Send. find('.') returning
npos throws std::runtime_error; otherwise the host is replaced by its
substring from the first dot onwards, and when the query map holds a
sig key its value is overwritten with REDACTED (AppendQueryParameter,
last write wins). -/
def redactUrl (u : Url) : Except RecError Url :=
  let hostChars := u.host.toList
  if !(hostChars.contains '.') then
    Except.error RecError.hostWithoutDot
  else
    let hostWithNoAccount := String.mk (hostChars.dropWhile (fun c => c != '.'))
    let copyUrl := { u with host := hostWithNoAccount }
    let copyUrl :=
      if containsKey "sig" copyUrl.query then
        urlAppendQueryParameter "sig" "REDACTED" copyUrl
      else copyUrl
    Except.ok copyUrl

/-- Modelled from the spec: Strings::LocaleInvariantCaseInsensitiveEqual
(strings.hpp is not among the provided sources) compares two strings
ignoring letter case. -/
def lowerEq (a b : String) : Bool :=
  a.toList.map Char.toLower == b.toList.map Char.toLower

/-- Response-header loop of Send: each header value is overwritten with
0 when the name is retry-after (case-insensitively) or with REDACTED
when it is x-ms-encryption-key-sha256, then emplaced into the response
data map; the Bool remembers whether a retry-after header was seen. -/
def recordHeadersLoop (acc : List (String × String)) (hs : List (String × String))
    (added : Bool) : List (String × String) × Bool :=
  match hs with
  | [] => (acc, added)
  | h :: t =>
    let value :=
      if lowerEq h.1 "retry-after" then "0"
      else if lowerEq h.1 "x-ms-encryption-key-sha256" then "REDACTED"
      else h.2
    recordHeadersLoop (mapInsert h.1 value acc) t (added || lowerEq h.1 "retry-after")

/-- Response-data block of Send: StatusCode first, then the header loop,
then a synthesized retry-after of 0 when none was seen, then the body. -/
def buildResponseData (statusCode : Nat) (hs : List (String × String)) (body : String) :
    List (String × String) :=
  let d0 := mapInsert "StatusCode" (toString statusCode) []
  let d1 := recordHeadersLoop d0 hs false
  let d2 := if d1.2 then d1.1 else mapInsert "retry-after" "0" d1.1
  mapInsert "Body" body d2

/-- RecordNetworkCallPolicy::Send: refuse streaming requests, filter
the request headers, redact the URL (throwing on a dotless host), call
the next policy, build the response data, append the record. The
recorded-data store is threaded as a list; the Except error carries the
thrown exception and leaves the store untouched. -/
def recordSend (req : TestRequest) (next : TestRequest → RawResponse)
    (recorded : List NetworkCallRecord) :
    Except RecError (RawResponse × List NetworkCallRecord) :=
  if req.isDownloadViaStream then
    Except.error RecError.unsupportedStreaming
  else
    let headers := filterBaseHeaders req.headers
    match redactUrl req.url with
    | Except.error e => Except.error e
    | Except.ok u =>
      let uri := urlGetAbsoluteUrl u
      let response := next req
      let responseData := buildResponseData response.statusCode response.headers response.body
      let record : NetworkCallRecord :=
        { method := req.method, uri := uri, headers := headers, response := responseData }
      Except.ok (response, recorded ++ [record])

/-!
Helper lemmas about the association-list map operations.
-/

theorem containsKey_iff (k : String) (m : List (String × String)) :
    containsKey k m = true ↔ k ∈ m.map Prod.fst := by
  induction m with
  | nil => simp [containsKey]
  | cons p t ih =>
    by_cases hp : k = p.1
    · simp [containsKey, List.lookup, hp]
    · have hb : (k == p.1) = false := by simp [hp]
      simp [containsKey, List.lookup, hb, hp]

theorem lookup_append_of_containsKey (k : String) (l r : List (String × String))
    (h : containsKey k l = true) : List.lookup k (l ++ r) = List.lookup k l := by
  induction l with
  | nil => simp [containsKey] at h
  | cons p t ih =>
    cases hp : (k == p.1) with
    | true => simp [List.lookup, hp]
    | false =>
      simp only [containsKey, List.lookup, hp] at h
      simp only [List.cons_append, List.lookup, hp]
      exact ih h

theorem occurrences_eq_zero (k : String) (m : List (String × String))
    (hc : containsKey k m = false) : occurrences k m = 0 := by
  have hk : k ∉ m.map Prod.fst := by
    intro hmem
    rw [← containsKey_iff] at hmem
    rw [hmem] at hc
    exact Bool.noConfusion hc
  unfold occurrences
  rw [List.countP_eq_zero]
  intro p hp
  simp only [beq_iff_eq]
  intro hpk
  exact hk (List.mem_map.mpr ⟨p, hp, hpk⟩)

theorem occurrences_eq_one (k : String) (m : List (String × String))
    (hn : keysNodup m) (hc : containsKey k m = true) : occurrences k m = 1 := by
  induction m with
  | nil => simp [containsKey] at hc
  | cons p t ih =>
    have hn' : p.1 ∉ t.map Prod.fst ∧ (t.map Prod.fst).Nodup := by
      simpa [keysNodup] using hn
    by_cases hp : p.1 = k
    · have ht : containsKey k t = false := by
        by_contra hcon
        have : containsKey k t = true := by
          cases h : containsKey k t with
          | true => rfl
          | false => exact absurd h hcon
        exact hn'.1 (hp ▸ (containsKey_iff k t).mp this)
      have h0 := occurrences_eq_zero k t ht
      simp only [occurrences] at h0
      simp [occurrences, List.countP_cons, hp, h0]
    · have hb : (k == p.1) = false := by simp [Ne.symm hp]
      have hc' : containsKey k t = true := by
        simpa [containsKey, List.lookup, hb] using hc
      have := ih hn'.2 hc'
      simpa [occurrences, List.countP_cons, hp] using this

theorem keysNodup_mergeMaps (l r : List (String × String))
    (hl : keysNodup l) (hr : keysNodup r) : keysNodup (mergeMaps l r) := by
  unfold keysNodup mergeMaps
  rw [List.map_append, List.nodup_append]
  refine ⟨hl, ?_, ?_⟩
  · exact ((r.filter_sublist).map Prod.fst).nodup hr
  · intro x hx hx'
    obtain ⟨p, hp, hpx⟩ := List.mem_map.mp hx'
    obtain ⟨hpr, hcond⟩ := List.mem_filter.mp hp
    have hck : containsKey p.1 l = false := by
      simpa using hcond
    rw [hpx] at hck
    rw [← containsKey_iff] at hx
    rw [hx] at hck
    exact Bool.noConfusion hck

theorem lookup_mapAssign_self (k v : String) (m : List (String × String)) :
    List.lookup k (mapAssign k v m) = some v := by
  induction m with
  | nil => simp [mapAssign, List.lookup]
  | cons p t ih =>
    by_cases hp : p.1 = k
    · simp [mapAssign, hp, List.lookup]
    · have hb : (p.1 == k) = false := by simp [hp]
      have hb' : (k == p.1) = false := by simp [Ne.symm hp]
      simp [mapAssign, hb, List.lookup, hb', ih]

theorem occurrences_mapAssign_eq_one (k v : String) (m : List (String × String))
    (hn : keysNodup m) : occurrences k (mapAssign k v m) = 1 := by
  induction m with
  | nil => simp [mapAssign, occurrences]
  | cons p t ih =>
    have hn' : p.1 ∉ t.map Prod.fst ∧ (t.map Prod.fst).Nodup := by
      simpa [keysNodup] using hn
    by_cases hp : p.1 = k
    · have ht : containsKey k t = false := by
        cases h : containsKey k t with
        | false => rfl
        | true => exact absurd (hp ▸ (containsKey_iff k t).mp h) hn'.1
      have h0 := occurrences_eq_zero k t ht
      simp only [occurrences] at h0
      simp [mapAssign, hp, occurrences, List.countP_cons, h0]
    · have hb : (p.1 == k) = false := by simp [hp]
      simp [mapAssign, hb, occurrences, List.countP_cons, hp]
      simpa [occurrences] using ih hn'.2

theorem mem_mapInsert_of_mem (k v : String) (m : List (String × String))
    (p : String × String) (hp : p ∈ m) : p ∈ mapInsert k v m := by
  unfold mapInsert
  split
  · exact hp
  · exact List.mem_append_left _ hp

theorem mem_mapInsert_self (k v : String) (m : List (String × String))
    (h : containsKey k m = false) : (k, v) ∈ mapInsert k v m := by
  simp [mapInsert, h]

theorem containsKey_mapInsert_imp (k k' v : String) (m : List (String × String))
    (h : containsKey k (mapInsert k' v m) = true) :
    k = k' ∨ containsKey k m = true := by
  unfold mapInsert at h
  split at h
  · exact Or.inr h
  · rw [containsKey_iff] at h
    rw [List.map_append, List.mem_append] at h
    rcases h with h | h
    · exact Or.inr ((containsKey_iff k m).mpr h)
    · simp at h
      exact Or.inl h

/-!
Helper lemmas about takeWhile, dropWhile and dropLast, used to trace
the pointer arithmetic of the curl header parsers.
-/

theorem takeWhile_append_cons {α : Type} (p : α → Bool) (l r : List α) (x : α)
    (hl : ∀ a ∈ l, p a = true) (hx : p x = false) :
    (l ++ x :: r).takeWhile p = l := by
  induction l with
  | nil => simp [List.takeWhile_cons, hx]
  | cons a t ih =>
    have ha := hl a (by simp)
    simp [List.takeWhile_cons, ha]
    exact ih (fun b hb => hl b (by simp [hb]))

theorem dropWhile_append_cons {α : Type} (p : α → Bool) (l r : List α) (x : α)
    (hl : ∀ a ∈ l, p a = true) (hx : p x = false) :
    (l ++ x :: r).dropWhile p = x :: r := by
  induction l with
  | nil => simp [List.dropWhile_cons, hx]
  | cons a t ih =>
    have ha := hl a (by simp)
    simp [List.dropWhile_cons, ha]
    exact ih (fun b hb => hl b (by simp [hb]))

theorem takeWhile_eq_self_of_forall {α : Type} (p : α → Bool) (l : List α)
    (hl : ∀ a ∈ l, p a = true) : l.takeWhile p = l := by
  induction l with
  | nil => rfl
  | cons a t ih =>
    have ha := hl a (by simp)
    simp [List.takeWhile_cons, ha]
    exact fun b hb => hl b (by simp [hb])

theorem dropWhile_eq_nil_of_forall {α : Type} (p : α → Bool) (l : List α)
    (hl : ∀ a ∈ l, p a = true) : l.dropWhile p = [] := by
  induction l with
  | nil => rfl
  | cons a t ih =>
    have ha := hl a (by simp)
    simp [List.dropWhile_cons, ha]
    exact fun b hb => hl b (by simp [hb])

theorem dropLast_dropLast_append {α : Type} (l : List α) (a b : α) :
    ((l ++ [a, b]).dropLast).dropLast = l := by
  have h : l ++ [a, b] = (l ++ [a]) ++ [b] := by simp
  rw [h, List.dropLast_concat, List.dropLast_concat]

theorem isDigit_ne_dot (c : Char) (h : c.isDigit = true) : (c != '.') = true := by
  by_cases hc : c = '.'
  · subst hc
    exact absurd h (by decide)
  · simp [hc]

theorem isDigit_ne_space (c : Char) (h : c.isDigit = true) : (c != ' ') = true := by
  by_cases hc : c = ' '
  · subst hc
    exact absurd h (by decide)
  · simp [hc]

/-!
Helper lemmas about the response-header recording loop.
-/

theorem mem_recordHeadersLoop_of_mem (p : String × String)
    (hs : List (String × String)) (acc : List (String × String)) (added : Bool)
    (hp : p ∈ acc) : p ∈ (recordHeadersLoop acc hs added).1 := by
  induction hs generalizing acc added with
  | nil => simpa [recordHeadersLoop] using hp
  | cons hd t ih =>
    simp only [recordHeadersLoop]
    exact ih _ _ (mem_mapInsert_of_mem _ _ _ _ hp)

theorem containsKey_recordHeadersLoop_imp (k : String)
    (hs : List (String × String)) (acc : List (String × String)) (added : Bool)
    (h : containsKey k (recordHeadersLoop acc hs added).1 = true) :
    containsKey k acc = true ∨ ∃ p ∈ hs, p.1 = k := by
  induction hs generalizing acc added with
  | nil => exact Or.inl (by simpa [recordHeadersLoop] using h)
  | cons hd t ih =>
    simp only [recordHeadersLoop] at h
    rcases ih _ _ h with hacc | ⟨p, hpmem, hpk⟩
    · rcases containsKey_mapInsert_imp _ _ _ _ hacc with hkk | hm
      · exact Or.inr ⟨hd, by simp, hkk.symm⟩
      · exact Or.inl hm
    · exact Or.inr ⟨p, by simp [hpmem], hpk⟩

theorem recordHeadersLoop_snd_false (hs : List (String × String))
    (acc : List (String × String))
    (h : ∀ p ∈ hs, lowerEq p.1 "retry-after" = false) :
    (recordHeadersLoop acc hs false).2 = false := by
  induction hs generalizing acc with
  | nil => rfl
  | cons hd t ih =>
    have hhd := h hd (by simp)
    simp only [recordHeadersLoop, hhd, Bool.or_false]
    exact ih _ (fun p hp => h p (by simp [hp]))

theorem recordHeadersLoop_mem_zero (k : String) (hs : List (String × String))
    (acc : List (String × String)) (added : Bool)
    (hinv : containsKey k acc = false ∨ (k, "0") ∈ acc)
    (hmem : ∃ v, (k, v) ∈ hs) (hra : lowerEq k "retry-after" = true) :
    (k, "0") ∈ (recordHeadersLoop acc hs added).1 := by
  induction hs generalizing acc added with
  | nil =>
    obtain ⟨v, hv⟩ := hmem
    simp at hv
  | cons hd t ih =>
    by_cases hk : hd.1 = k
    · have hval : (if lowerEq hd.1 "retry-after" then "0"
          else if lowerEq hd.1 "x-ms-encryption-key-sha256" then "REDACTED"
          else hd.2) = "0" := by
        rw [hk, hra]
        simp
      simp only [recordHeadersLoop, hval]
      rcases hinv with hfree | hin
      · exact mem_recordHeadersLoop_of_mem _ _ _ _
          (hk ▸ mem_mapInsert_self k "0" acc hfree)
      · exact mem_recordHeadersLoop_of_mem _ _ _ _ (mem_mapInsert_of_mem _ _ _ _ hin)
    · obtain ⟨v, hv⟩ := hmem
      have hvt : (k, v) ∈ t := by
        rcases List.mem_cons.mp hv with heq | ht
        · exact absurd (congrArg Prod.fst heq.symm) hk
        · exact ht
      simp only [recordHeadersLoop]
      refine ih _ _ ?_ ⟨v, hvt⟩
      rcases hinv with hfree | hin
      · left
        cases hnew : containsKey k (mapInsert hd.1 _ acc) with
        | false => rfl
        | true =>
          rcases containsKey_mapInsert_imp _ _ _ _ hnew with hkk | hm
          · exact absurd hkk.symm hk
          · rw [hm] at hfree
            exact Bool.noConfusion hfree
      · exact Or.inr (mem_mapInsert_of_mem _ _ _ _ hin)

/-!
Claim theorems.
-/

/-- C1: GetEncodedUrl merges the normal and the retry-scope query maps
so that a key present in both maps is bound exactly once in the merged
pair sequence the encoded URL is built from, with the retry-scope
value, and the merged sequence never binds any key twice. -/
theorem getEncodedUrl_merges_overlays (req : Request) (k : String)
    (hn : keysNodup req.queryParameters) (hrn : keysNodup req.retryQueryParameters)
    (hkr : containsKey k req.retryQueryParameters = true)
    (_hkq : containsKey k req.queryParameters = true) :
    getEncodedUrl req = req.url ++
      queryString (mergeMaps req.retryQueryParameters req.queryParameters) ∧
    occurrences k (mergeMaps req.retryQueryParameters req.queryParameters) = 1 ∧
    List.lookup k (mergeMaps req.retryQueryParameters req.queryParameters) =
      List.lookup k req.retryQueryParameters ∧
    keysNodup (mergeMaps req.retryQueryParameters req.queryParameters) := by
  have hne : req.retryQueryParameters ≠ [] := by
    intro h
    rw [h] at hkr
    simp [containsKey] at hkr
  have hnodup := keysNodup_mergeMaps _ _ hrn hn
  have hlookup : List.lookup k (mergeMaps req.retryQueryParameters req.queryParameters) =
      List.lookup k req.retryQueryParameters := by
    simpa [mergeMaps] using
      lookup_append_of_containsKey k req.retryQueryParameters
        (req.queryParameters.filter (fun p => !(containsKey p.1 req.retryQueryParameters))) hkr
  have hck : containsKey k (mergeMaps req.retryQueryParameters req.queryParameters) = true := by
    rw [containsKey, hlookup]
    exact hkr
  refine ⟨?_, occurrences_eq_one _ _ hnodup hck, hlookup, hnodup⟩
  rw [getEncodedUrl, if_neg]
  intro hcond
  rcases Bool.and_eq_true_iff.mp hcond with ⟨h1, h2⟩
  exact hne (List.isEmpty_iff.mp h2)

/-- C1 witness: a concrete request whose key a sits in both scopes. -/
theorem getEncodedUrl_merges_overlays_witness :
    getEncodedUrl ⟨"http://h/p", [("a", "1"), ("b", "2")], [("a", "9")], [], [], true⟩ =
      "http://h/p" ++ queryString (mergeMaps [("a", "9")] [("a", "1"), ("b", "2")]) ∧
    occurrences "a" (mergeMaps [("a", "9")] [("a", "1"), ("b", "2")]) = 1 ∧
    List.lookup "a" (mergeMaps [("a", "9")] [("a", "1"), ("b", "2")]) =
      List.lookup "a" [("a", "9")] ∧
    keysNodup (mergeMaps [("a", "9")] [("a", "1"), ("b", "2")]) :=
  getEncodedUrl_merges_overlays
    ⟨"http://h/p", [("a", "1"), ("b", "2")], [("a", "9")], [], [], true⟩ "a"
    (by simp [keysNodup]) (by simp [keysNodup]) (by decide) (by decide)

/-- C2 counterexample: with retry mode disabled, adding key a twice
keeps the first stored value, so the claimed last-write-wins behavior
fails in the normal scope. -/
theorem addQueryParameter_last_write_counterexample :
    List.lookup "a" (addQueryParameter "a" "2" (addQueryParameter "a" "1"
      ⟨"u", [], [], [], [], false⟩)).queryParameters = some "1" ∧
    (some "1" : Option String) ≠ some "2" :=
  ⟨by decide, by decide⟩

/-- C2 amended: only the retry scope is last-write-wins (operator[]
assignment); the normal scope uses std::map::insert, which keeps an
existing binding, so there the first write wins and a later write for
an existing key is a no-op. -/
theorem addQueryParameter_scope_semantics (req : Request) (name v : String) :
    (req.retryModeEnabled = true →
      List.lookup name (addQueryParameter name v req).retryQueryParameters = some v ∧
      (addQueryParameter name v req).queryParameters = req.queryParameters) ∧
    (req.retryModeEnabled = false → containsKey name req.queryParameters = true →
      addQueryParameter name v req = req) ∧
    (req.retryModeEnabled = false → containsKey name req.queryParameters = false →
      (addQueryParameter name v req).queryParameters = req.queryParameters ++ [(name, v)]) := by
  refine ⟨fun h => ⟨?_, ?_⟩, fun h hc => ?_, fun h hc => ?_⟩
  · simp only [addQueryParameter, h, if_true]
    exact lookup_mapAssign_self name v req.retryQueryParameters
  · simp [addQueryParameter, h]
  · rw [addQueryParameter, if_neg (by simp [h])]
    have hins : mapInsert name v req.queryParameters = req.queryParameters := by
      simp [mapInsert, hc]
    rw [hins]
  · simp [addQueryParameter, h, mapInsert, hc]

/-- C2 amended witness: a retry-scope overwrite and a normal-scope
ignored overwrite on concrete requests. -/
theorem addQueryParameter_scope_semantics_witness :
    List.lookup "a" (addQueryParameter "a" "2"
      ⟨"u", [], [("a", "1")], [], [], true⟩).retryQueryParameters = some "2" ∧
    addQueryParameter "a" "2" ⟨"u", [("a", "1")], [], [], [], false⟩ =
      ⟨"u", [("a", "1")], [], [], [], false⟩ :=
  ⟨((addQueryParameter_scope_semantics ⟨"u", [], [("a", "1")], [], [], true⟩ "a" "2").1 rfl).1,
   (addQueryParameter_scope_semantics ⟨"u", [("a", "1")], [], [], [], false⟩ "a" "2").2.1
      rfl (by decide)⟩

/-- C3: StartRetry empties the retry-scope header map and leaves the
normal headers and both query maps exactly as they were. -/
theorem startRetry_clears_only_retry_headers (req : Request) :
    (startRetry req).retryHeaders = [] ∧
    (startRetry req).headers = req.headers ∧
    (startRetry req).queryParameters = req.queryParameters ∧
    (startRetry req).retryQueryParameters = req.retryQueryParameters :=
  ⟨rfl, rfl, rfl, rfl⟩

/-- C4: the transport maps the host-resolution code, the write-failure
code, and every other nonzero engine code to three pairwise distinct
typed failures, and a zero code returns the constructed Response as is,
whatever its status code. -/
theorem curlSend_error_mapping (resp : Response) :
    curlSend CURLE_COULDNT_RESOLVE_HOST resp
        = Except.error CurlSendError.couldNotResolveHostException ∧
    curlSend CURLE_WRITE_ERROR resp
        = Except.error CurlSendError.errorWhileWrittingResponse ∧
    (∀ c : Nat, c ≠ CURLE_OK → c ≠ CURLE_COULDNT_RESOLVE_HOST → c ≠ CURLE_WRITE_ERROR →
      curlSend c resp = Except.error CurlSendError.transportException) ∧
    curlSend CURLE_OK resp = Except.ok resp ∧
    CurlSendError.couldNotResolveHostException ≠ CurlSendError.errorWhileWrittingResponse ∧
    CurlSendError.couldNotResolveHostException ≠ CurlSendError.transportException ∧
    CurlSendError.errorWhileWrittingResponse ≠ CurlSendError.transportException := by
  refine ⟨rfl, rfl, ?_, rfl, by decide, by decide, by decide⟩
  intro c h0 h6 h23
  simp only [CURLE_OK, CURLE_COULDNT_RESOLVE_HOST, CURLE_WRITE_ERROR] at h0 h6 h23
  simp [curlSend, CURLE_OK, CURLE_COULDNT_RESOLVE_HOST, CURLE_WRITE_ERROR, h0, h6, h23]

/-- C4 witness: an unrecognized nonzero code becomes the generic
transport failure, and a zero code returns a non-2xx response. -/
theorem curlSend_error_mapping_witness :
    curlSend 7 ⟨1, 1, 500, [], []⟩ = Except.error CurlSendError.transportException ∧
    curlSend 0 ⟨1, 1, 500, [], []⟩ = Except.ok ⟨1, 1, 500, [], []⟩ :=
  ⟨(curlSend_error_mapping ⟨1, 1, 500, [], []⟩).2.2.1 7 (by decide) (by decide) (by decide),
   (curlSend_error_mapping ⟨1, 1, 500, [], []⟩).2.2.2.1⟩

/-- C5: the first header line is parsed as PROTOCOL/major.minor
status-code reason-phrase with the trailing CR LF removed from the
reason phrase; the protocol part is any five characters (the parser
skips them without inspection). Each digit run must stay within
INT_MAX (std::stoi throws std::out_of_range beyond it), and the major
and minor version values wrap modulo 2^16 through the (uint16_t) casts
of the Response constructor call. -/
theorem parseFirstHeader_status_line (proto d1 d2 d3 reason : List Char)
    (hp : proto.length = 5)
    (h1 : d1 ≠ [] ∧ ∀ c ∈ d1, c.isDigit = true) (h1r : digitsVal d1 ≤ 2147483647)
    (h2 : d2 ≠ [] ∧ ∀ c ∈ d2, c.isDigit = true) (h2r : digitsVal d2 ≤ 2147483647)
    (h3 : d3 ≠ [] ∧ ∀ c ∈ d3, c.isDigit = true) (h3r : digitsVal d3 ≤ 2147483647) :
    parseAndSetFirstHeader
        (proto ++ d1 ++ '.' :: (d2 ++ ' ' :: (d3 ++ ' ' :: (reason ++ ['\r', '\n']))))
      = some ⟨digitsVal d1 % 65536, digitsVal d2 % 65536, digitsVal d3, reason, []⟩ := by
  have hd1ne : ∀ c ∈ d1, (c != '.') = true := fun c hc => isDigit_ne_dot c (h1.2 c hc)
  have hd2ne : ∀ c ∈ d2, (c != ' ') = true := fun c hc => isDigit_ne_space c (h2.2 c hc)
  have hd3ne : ∀ c ∈ d3, (c != ' ') = true := fun c hc => isDigit_ne_space c (h3.2 c hc)
  have hstoi1 : stoi d1 = some (digitsVal d1) := by
    unfold stoi
    rw [takeWhile_eq_self_of_forall _ _ h1.2]
    simp only [if_neg h1.1]
    rw [if_neg (by simpa using Nat.not_lt.mpr h1r)]
  have hstoi2 : stoi d2 = some (digitsVal d2) := by
    unfold stoi
    rw [takeWhile_eq_self_of_forall _ _ h2.2]
    simp only [if_neg h2.1]
    rw [if_neg (by simpa using Nat.not_lt.mpr h2r)]
  have hstoi3 : stoi d3 = some (digitsVal d3) := by
    unfold stoi
    rw [takeWhile_eq_self_of_forall _ _ h3.2]
    simp only [if_neg h3.1]
    rw [if_neg (by simpa using Nat.not_lt.mpr h3r)]
  simp only [parseAndSetFirstHeader]
  rw [List.append_assoc, ← hp, List.drop_left]
  rw [takeWhile_append_cons _ _ _ _ hd1ne (by decide),
      dropWhile_append_cons _ _ _ _ hd1ne (by decide)]
  simp only [List.drop_succ_cons, List.drop_zero]
  rw [takeWhile_append_cons _ _ _ _ hd2ne (by decide),
      dropWhile_append_cons _ _ _ _ hd2ne (by decide)]
  simp only [List.drop_succ_cons, List.drop_zero]
  rw [takeWhile_append_cons _ _ _ _ hd3ne (by decide),
      dropWhile_append_cons _ _ _ _ hd3ne (by decide)]
  simp only [List.drop_succ_cons, List.drop_zero]
  rw [dropLast_dropLast_append]
  rw [hstoi1, hstoi2, hstoi3]

/-- C5 witness: the exact status line of the claim. -/
theorem parseFirstHeader_status_line_witness :
    parseAndSetFirstHeader "HTTP/1.1 200 OK\r\n".toList
      = some ⟨1, 1, 200, ['O', 'K'], []⟩ := by
  have h := parseFirstHeader_status_line ['H', 'T', 'T', 'P', '/'] ['1'] ['1']
      ['2', '0', '0'] ['O', 'K'] (by decide) (by decide) (by decide) (by decide)
      (by decide) (by decide) (by decide)
  have heq : "HTTP/1.1 200 OK\r\n".toList
      = ['H', 'T', 'T', 'P', '/'] ++ ['1'] ++ '.' :: (['1'] ++ ' ' ::
          (['2', '0', '0'] ++ ' ' :: (['O', 'K'] ++ ['\r', '\n']))) := by decide
  rw [heq, h]
  decide

/-- C6: a non-first header line with no colon leaves the response
unchanged; otherwise the text before the first colon is the name and
the text after it, minus leading spaces and tabs and minus the final
two line-terminator characters, is the value appended to the response
headers. -/
theorem parseHeader_name_value (resp : Response) (header name ws value : List Char) :
    ((∀ c ∈ header, (c != ':') = true) → parseHeader resp header = resp) ∧
    (header = name ++ ':' :: (ws ++ (value ++ ['\r', '\n'])) →
     (∀ c ∈ name, (c != ':') = true) →
     (∀ c ∈ ws, (c == ' ' || c == '\t') = true) →
     (∀ c, value.head? = some c → (c == ' ' || c == '\t') = false) →
     parseHeader resp header = respAddHeader (String.mk name) (String.mk value) resp ∧
     (parseHeader resp header).headers
       = resp.headers ++ [(String.mk name, String.mk value)]) := by
  constructor
  · intro hnc
    simp only [parseHeader]
    rw [dropWhile_eq_nil_of_forall _ _ hnc]
  · intro hdr hname hws hval
    subst hdr
    have htrim : (ws ++ (value ++ ['\r', '\n'])).dropWhile
        (fun c => c == ' ' || c == '\t') = value ++ ['\r', '\n'] := by
      cases hv : value with
      | nil =>
        simp only [hv, List.nil_append]
        exact dropWhile_append_cons _ _ _ _ hws (by decide)
      | cons c v' =>
        have hc := hval c (by simp [hv])
        simp only [hv, List.cons_append]
        exact dropWhile_append_cons _ _ _ _ hws hc
    have hres : parseHeader resp (name ++ ':' :: (ws ++ (value ++ ['\r', '\n'])))
        = respAddHeader (String.mk name) (String.mk value) resp := by
      simp only [parseHeader]
      rw [takeWhile_append_cons _ _ _ _ hname (by decide),
          dropWhile_append_cons _ _ _ _ hname (by decide)]
      simp only [htrim, dropLast_dropLast_append]
    exact ⟨hres, by rw [hres]; rfl⟩

/-- C6 witness: a concrete name:value line with a leading space and a
concrete colon-free sentinel line. -/
theorem parseHeader_name_value_witness :
    parseHeader ⟨1, 1, 200, [], []⟩ "\r\n".toList = ⟨1, 1, 200, [], []⟩ ∧
    parseHeader ⟨1, 1, 200, [], []⟩ "Content-Length: 42\r\n".toList
      = respAddHeader "Content-Length" "42" ⟨1, 1, 200, [], []⟩ := by
  constructor
  · exact (parseHeader_name_value ⟨1, 1, 200, [], []⟩ "\r\n".toList [] [] []).1 (by decide)
  · have h := (parseHeader_name_value ⟨1, 1, 200, [], []⟩
        "Content-Length: 42\r\n".toList "Content-Length".toList [' '] ['4', '2']).2
        (by decide) (by decide) (by decide) (by decide)
    exact h.1

/-!
Additional nodup and lookup lemmas for the recording policy claims.
-/

theorem keysNodup_mapInsert (k v : String) (m : List (String × String))
    (h : keysNodup m) : keysNodup (mapInsert k v m) := by
  unfold mapInsert
  cases hc : containsKey k m with
  | true => simpa using h
  | false =>
    rw [if_neg (by simp)]
    unfold keysNodup
    rw [List.map_append, List.nodup_append]
    refine ⟨h, by simp, ?_⟩
    intro x hx hx'
    simp only [List.map_cons, List.map_nil, List.mem_singleton] at hx'
    subst hx'
    rw [← containsKey_iff] at hx
    rw [hx] at hc
    exact Bool.noConfusion hc

theorem keysNodup_recordHeadersLoop (hs : List (String × String))
    (acc : List (String × String)) (added : Bool)
    (h : keysNodup acc) : keysNodup (recordHeadersLoop acc hs added).1 := by
  induction hs generalizing acc added with
  | nil => simpa [recordHeadersLoop] using h
  | cons hd t ih =>
    simp only [recordHeadersLoop]
    exact ih _ _ (keysNodup_mapInsert _ _ _ h)

theorem lookup_eq_of_mem_of_keysNodup (k v : String) (m : List (String × String))
    (hn : keysNodup m) (hm : (k, v) ∈ m) : List.lookup k m = some v := by
  induction m with
  | nil => simp at hm
  | cons p t ih =>
    have hn' : p.1 ∉ t.map Prod.fst ∧ (t.map Prod.fst).Nodup := by
      simpa [keysNodup] using hn
    rcases List.mem_cons.mp hm with heq | ht
    · subst heq
      simp [List.lookup]
    · have hne : p.1 ≠ k := by
        intro hk
        exact hn'.1 (List.mem_map.mpr ⟨(k, v), ht, hk.symm⟩)
      have hb : (k == p.1) = false := by simp [Ne.symm hne]
      simp only [List.lookup, hb]
      exact ih hn'.2 ht

theorem keysNodup_buildResponseData (sc : Nat) (hs : List (String × String))
    (body : String) : keysNodup (buildResponseData sc hs body) := by
  have hd0 : keysNodup (mapInsert "StatusCode" (toString sc) []) :=
    keysNodup_mapInsert _ _ _ (by simp [keysNodup])
  have hd1 := keysNodup_recordHeadersLoop hs _ false hd0
  simp only [buildResponseData]
  cases hflag : (recordHeadersLoop (mapInsert "StatusCode" (toString sc) []) hs false).2 with
  | true => simpa [hflag] using keysNodup_mapInsert "Body" body _ hd1
  | false =>
    rw [if_neg (by simp)]
    exact keysNodup_mapInsert "Body" body _ (keysNodup_mapInsert "retry-after" "0" _ hd1)

theorem lowerEq_retry_ne_statusCode (k : String)
    (h : lowerEq k "retry-after" = true) : k ≠ "StatusCode" := by
  intro hk
  rw [hk] at h
  exact absurd h (by decide)

/-- C7: a streaming request makes the recording policy fail with the
unsupported-operation error whatever the next policy would do and
whatever is already recorded, so the next policy is never consulted and
the record store gains no entry. -/
theorem recordSend_rejects_streaming (req : TestRequest)
    (h : req.isDownloadViaStream = true) :
    ∀ (next : TestRequest → RawResponse) (recorded : List NetworkCallRecord),
      recordSend req next recorded = Except.error RecError.unsupportedStreaming := by
  intro next recorded
  simp [recordSend, h]

/-- C7 witness: a concrete streaming request. -/
theorem recordSend_rejects_streaming_witness :
    recordSend ⟨true, "GET", [], ⟨"https", "h.example.com", 443, "/", []⟩⟩
        (fun _ => ⟨200, [], ""⟩) []
      = Except.error RecError.unsupportedStreaming :=
  recordSend_rejects_streaming
    ⟨true, "GET", [], ⟨"https", "h.example.com", 443, "/", []⟩⟩ rfl
    (fun _ => ⟨200, [], ""⟩) []

/-- C8: the recorded response data binds a key equal to retry-after up
to letter case to the value 0: a response header so named has its value
replaced by 0, and with no such header the entry retry-after, 0 is
synthesized. -/
theorem recordResponseData_retry_after (sc : Nat) (hs : List (String × String))
    (body : String) :
    (∀ k v, (k, v) ∈ hs → lowerEq k "retry-after" = true →
      List.lookup k (buildResponseData sc hs body) = some "0") ∧
    ((∀ p ∈ hs, lowerEq p.1 "retry-after" = false) →
      List.lookup "retry-after" (buildResponseData sc hs body) = some "0") ∧
    (∃ k, lowerEq k "retry-after" = true ∧
      List.lookup k (buildResponseData sc hs body) = some "0") := by
  have hnodup := keysNodup_buildResponseData sc hs body
  have main1 : ∀ k v, (k, v) ∈ hs → lowerEq k "retry-after" = true →
      (k, "0") ∈ buildResponseData sc hs body := by
    intro k v hmem hra
    have hkS := lowerEq_retry_ne_statusCode k hra
    have hkb : (k == "StatusCode") = false := by simp [hkS]
    have hd0 : containsKey k (mapInsert "StatusCode" (toString sc) []) = false := by
      simp [mapInsert, containsKey, List.lookup, hkb]
    have hd1 : (k, "0") ∈
        (recordHeadersLoop (mapInsert "StatusCode" (toString sc) []) hs false).1 :=
      recordHeadersLoop_mem_zero k hs _ false (Or.inl hd0) ⟨v, hmem⟩ hra
    simp only [buildResponseData]
    cases hflag :
        (recordHeadersLoop (mapInsert "StatusCode" (toString sc) []) hs false).2 with
    | true => simpa [hflag] using mem_mapInsert_of_mem "Body" body _ _ hd1
    | false =>
      rw [if_neg (by simp)]
      exact mem_mapInsert_of_mem "Body" body _ _
        (mem_mapInsert_of_mem "retry-after" "0" _ _ hd1)
  have main2 : (∀ p ∈ hs, lowerEq p.1 "retry-after" = false) →
      ("retry-after", "0") ∈ buildResponseData sc hs body := by
    intro hall
    have hflag := recordHeadersLoop_snd_false hs (mapInsert "StatusCode" (toString sc) []) hall
    have hck : containsKey "retry-after"
        (recordHeadersLoop (mapInsert "StatusCode" (toString sc) []) hs false).1 = false := by
      cases hc : containsKey "retry-after"
          (recordHeadersLoop (mapInsert "StatusCode" (toString sc) []) hs false).1 with
      | false => rfl
      | true =>
        rcases containsKey_recordHeadersLoop_imp _ _ _ _ hc with hacc | ⟨p, hp, hpk⟩
        · have hne : ("retry-after" == "StatusCode") = false := by decide
          simp [mapInsert, containsKey, List.lookup, hne] at hacc
        · have hlow := hall p hp
          rw [hpk] at hlow
          exact absurd hlow (by decide)
    have hmem := mem_mapInsert_self "retry-after" "0" _ hck
    simp only [buildResponseData, hflag]
    rw [if_neg (by simp)]
    exact mem_mapInsert_of_mem "Body" body _ _ hmem
  refine ⟨fun k v hmem hra => lookup_eq_of_mem_of_keysNodup _ _ _ hnodup
      (main1 k v hmem hra), fun hall => lookup_eq_of_mem_of_keysNodup _ _ _ hnodup
      (main2 hall), ?_⟩
  by_cases hex : ∃ p ∈ hs, lowerEq p.1 "retry-after" = true
  · obtain ⟨p, hp, hra⟩ := hex
    exact ⟨p.1, hra,
      lookup_eq_of_mem_of_keysNodup _ _ _ hnodup (main1 p.1 p.2 hp hra)⟩
  · push_neg at hex
    refine ⟨"retry-after", by decide,
      lookup_eq_of_mem_of_keysNodup _ _ _ hnodup (main2 ?_)⟩
    intro p hp
    simpa using hex p hp

/-- C8 witness: one response with Retry-After 30 (the value is replaced
by 0) and one with no such header (the entry is synthesized). -/
theorem recordResponseData_retry_after_witness :
    List.lookup "Retry-After" (buildResponseData 200 [("Retry-After", "30")] "b")
      = some "0" ∧
    List.lookup "retry-after" (buildResponseData 200 [("a", "b")] "b") = some "0" :=
  ⟨(recordResponseData_retry_after 200 [("Retry-After", "30")] "b").1
      "Retry-After" "30" (by decide) (by decide),
   (recordResponseData_retry_after 200 [("a", "b")] "b").2.1 (by decide)⟩

/-- C9: on a host of the form label.rest with a dot-free leftmost
label, the recording redaction always succeeds and replaces the host by
dot-rest (the leftmost DNS label removed, the dot kept), keeping
scheme, port and path; when a sig query parameter exists it is rebound
to REDACTED as the single sig binding, and when none exists the query
map is left unchanged. -/
theorem redactUrl_host_and_sig (u : Url) (label rest : List Char)
    (hhost : u.host.toList = label ++ '.' :: rest)
    (hlabel : ∀ c ∈ label, (c != '.') = true) :
    (∃ u', redactUrl u = Except.ok u' ∧ u'.host = String.mk ('.' :: rest) ∧
      u'.scheme = u.scheme ∧ u'.port = u.port ∧ u'.path = u.path) ∧
    (containsKey "sig" u.query = true → keysNodup u.query →
      redactUrl u = Except.ok ⟨u.scheme, String.mk ('.' :: rest), u.port, u.path,
        mapAssign "sig" "REDACTED" u.query⟩ ∧
      List.lookup "sig" (mapAssign "sig" "REDACTED" u.query) = some "REDACTED" ∧
      occurrences "sig" (mapAssign "sig" "REDACTED" u.query) = 1) ∧
    (containsKey "sig" u.query = false →
      redactUrl u = Except.ok ⟨u.scheme, String.mk ('.' :: rest), u.port, u.path, u.query⟩) := by
  have hcontains : u.host.toList.contains '.' = true := by
    rw [hhost]
    simp
  have hdrop' : List.dropWhile (fun c => c != '.') u.host.data = '.' :: rest := by
    rw [show u.host.data = u.host.toList from rfl, hhost]
    exact dropWhile_append_cons _ _ _ _ hlabel (by decide)
  cases hs : containsKey "sig" u.query with
  | true =>
    have hred : redactUrl u = Except.ok ⟨u.scheme, String.mk ('.' :: rest), u.port, u.path,
        mapAssign "sig" "REDACTED" u.query⟩ := by
      simp only [redactUrl, hcontains, Bool.not_true]
      rw [if_neg (by simp)]
      simp [urlAppendQueryParameter, hs, hdrop']
    exact ⟨⟨_, hred, rfl, rfl, rfl, rfl⟩,
      fun _ hq => ⟨hred, lookup_mapAssign_self _ _ _,
        occurrences_mapAssign_eq_one _ _ _ hq⟩,
      fun hf => absurd hf (by simp [hs])⟩
  | false =>
    have hred : redactUrl u = Except.ok ⟨u.scheme, String.mk ('.' :: rest), u.port, u.path,
        u.query⟩ := by
      simp only [redactUrl, hcontains, Bool.not_true]
      rw [if_neg (by simp)]
      simp [hs, hdrop']
    exact ⟨⟨_, hred, rfl, rfl, rfl, rfl⟩,
      fun ht _ => absurd ht (by simp [hs]),
      fun _ => hred⟩

/-- C9 witness: the exact host and sig value of the claim, plus the
same host with no sig parameter (host still redacted, query kept). -/
theorem redactUrl_host_and_sig_witness :
    redactUrl ⟨"https", "myaccount.blob.example.com", 443, "/c", [("sig", "abc123")]⟩
      = Except.ok ⟨"https", ".blob.example.com", 443, "/c", [("sig", "REDACTED")]⟩ ∧
    List.lookup "sig" [("sig", "REDACTED")] = some "REDACTED" ∧
    occurrences "sig" [("sig", "REDACTED")] = 1 ∧
    redactUrl ⟨"https", "myaccount.blob.example.com", 443, "/c", [("x", "1")]⟩
      = Except.ok ⟨"https", ".blob.example.com", 443, "/c", [("x", "1")]⟩ := by
  have h1 := (redactUrl_host_and_sig
      ⟨"https", "myaccount.blob.example.com", 443, "/c", [("sig", "abc123")]⟩
      "myaccount".toList "blob.example.com".toList
      (by decide) (by decide)).2.1 (by decide) (by simp [keysNodup])
  have h2 := (redactUrl_host_and_sig
      ⟨"https", "myaccount.blob.example.com", 443, "/c", [("x", "1")]⟩
      "myaccount".toList "blob.example.com".toList
      (by decide) (by decide)).2.2 (by decide)
  refine ⟨?_, by decide, by decide, ?_⟩
  · rw [h1.1]
    rfl
  · rw [h2]
    rfl

/-- C10 counterexample: a streaming request whose host has no dot
raises the unsupported-streaming failure, not a failure distinct from
it: the streaming check precedes the host check. -/
theorem recordSend_dotless_host_counterexample :
    recordSend ⟨true, "GET", [], ⟨"https", "localhost", 443, "/", []⟩⟩
        (fun _ => ⟨200, [], ""⟩) [] = Except.error RecError.unsupportedStreaming ∧
    RecError.unsupportedStreaming ≠ RecError.hostWithoutDot :=
  ⟨rfl, by decide⟩

/-- C10 amended: a non-streaming request whose URL host contains no dot
makes the recording policy fail with the host error (distinct from the
unsupported-streaming failure) whatever the next policy would do, so
the request is neither recorded nor forwarded. -/
theorem recordSend_dotless_host_fails (req : TestRequest)
    (hstream : req.isDownloadViaStream = false)
    (hdot : req.url.host.toList.contains '.' = false) :
    (∀ (next : TestRequest → RawResponse) (recorded : List NetworkCallRecord),
      recordSend req next recorded = Except.error RecError.hostWithoutDot) ∧
    RecError.hostWithoutDot ≠ RecError.unsupportedStreaming := by
  refine ⟨fun next recorded => ?_, by decide⟩
  have hnm : ('.' : Char) ∉ req.url.host.data := by simpa using hdot
  simp [recordSend, hstream, redactUrl, hnm]

/-- C10 amended witness: a concrete non-streaming request with a
dotless host. -/
theorem recordSend_dotless_host_fails_witness :
    recordSend ⟨false, "GET", [], ⟨"https", "localhost", 443, "/", []⟩⟩
        (fun _ => ⟨200, [], ""⟩) [] = Except.error RecError.hostWithoutDot :=
  (recordSend_dotless_host_fails
      ⟨false, "GET", [], ⟨"https", "localhost", 443, "/", []⟩⟩ rfl (by decide)).1
    (fun _ => ⟨200, [], ""⟩) []

end AzureCore
